import Mathlib

/-!
Shallow embedding of the MathBoard whiteboard engine
(src/components/Whiteboard.tsx, with host glue from App and Chat).

Numbers are modelled as rationals (exact arithmetic in place of IEEE
doubles); JS arrays as lists; nullable values as `Option`.  Each
definition mirrors one function of the source file, keeping its name.
-/

namespace MathBoard

/-- A location in logical drawing-plane coordinates, with optional input
pressure (src `Point` in types.ts). -/
structure Point where
  x : ℚ
  y : ℚ
  pressure : Option ℚ := none
deriving DecidableEq

/-- The tool union type of Whiteboard.tsx (line 13). -/
inductive Tool where
  | pen
  | eraser
  | highlighter
  | pan
  | rectangle
  | circle
  | line
deriving DecidableEq

/-- One drawn stroke (src `DrawingPath` in types.ts). -/
structure DrawingPath where
  id : String
  points : List Point
  color : String
  width : ℚ
  tool : Tool
  isFilled : Option Bool := none
deriving DecidableEq

/-- The viewport: screen-space offset of the logical origin plus a uniform
zoom factor. -/
structure Viewport where
  x : ℚ
  y : ℚ
  scale : ℚ
deriving DecidableEq

/-- The mutable component state of the Whiteboard component: the committed
path log and viewport (props owned by the host) together with the local
useState fields (lines 15-21). -/
structure WhiteboardState where
  paths : List DrawingPath
  viewport : Viewport
  isDrawing : Bool
  currentPath : Option DrawingPath
  currentTool : Tool
  color : String
  width : ℚ
  readOnly : Bool
deriving DecidableEq

/-- The fields of a React pointer event that the component reads. -/
structure PEvent where
  clientX : ℚ
  clientY : ℚ
  pressure : ℚ
  movementX : ℚ
  movementY : ℚ
  buttons : ℕ
deriving DecidableEq

/-- The fields of a React wheel event that the component reads. -/
structure WheelEvent where
  clientX : ℚ
  clientY : ℚ
  deltaY : ℚ
deriving DecidableEq

/-- `handleUndo` (lines 23-29): copy the array, pop the last element; does
nothing when the log is empty (the guard fails, `setPaths` is not called). -/
def handleUndo (paths : List DrawingPath) : List DrawingPath :=
  if paths.length > 0 then paths.dropLast else paths

/-- `handleClear` (lines 31-35), after the user confirms. -/
def handleClear : List DrawingPath := []

/-- `getCanvasPoint` (lines 38-47): convert a pointer event to a logical
point under the current viewport.  `rect` is the canvas bounding rectangle
origin `(left, top)`; we model the canvas as present (the `null` canvas
fallback returns the origin). -/
def getCanvasPoint (rect : ℚ × ℚ) (vp : Viewport) (e : PEvent) : Point :=
  { x := (e.clientX - rect.1 - vp.x) / vp.scale
    y := (e.clientY - rect.2 - vp.y) / vp.scale
    pressure := some e.pressure }

/-- `startDrawing` (lines 49-64): no-op when read-only or the pan tool is
active; otherwise enter the drawing state and seed the in-progress path
with the single converted sample point and tool-specific color/width.
`newId` stands for `Date.now().toString()`. -/
def startDrawing (rect : ℚ × ℚ) (s : WhiteboardState) (e : PEvent)
    (newId : String) : WhiteboardState :=
  if s.readOnly = true then s
  else if s.currentTool = Tool.pan then s
  else
    let point := getCanvasPoint rect s.viewport e
    { s with
      isDrawing := true
      currentPath := some
        { id := newId
          points := [point]
          color :=
            if s.currentTool = Tool.eraser then "#ffffff"
            else if s.currentTool = Tool.highlighter then s.color ++ "50"
            else s.color
          width :=
            if s.currentTool = Tool.eraser then 20
            else if s.currentTool = Tool.highlighter then 15
            else s.width
          tool := s.currentTool } }

/-- The freehand tools of the `draw` branch (line 81). -/
def freehandTools : List Tool := [Tool.pen, Tool.eraser, Tool.highlighter]

/-- Fallback point standing for the JS `undefined` that `points[0]` would
yield on an empty array (never reached: in-progress paths are seeded with
one point). -/
def dfltPoint : Point := { x := 0, y := 0 }

/-- `draw` (lines 66-95): when not in the drawing state (or no in-progress
path), pan if the pan tool is active with the primary button held,
otherwise do nothing.  When drawing, freehand tools append the converted
point, shape tools replace the point list with anchor and current point. -/
def draw (rect : ℚ × ℚ) (s : WhiteboardState) (e : PEvent) :
    WhiteboardState :=
  if s.isDrawing = false ∨ s.currentPath = none then
    if s.currentTool = Tool.pan ∧ e.buttons = 1 then
      { s with viewport :=
        { x := s.viewport.x + e.movementX
          y := s.viewport.y + e.movementY
          scale := s.viewport.scale } }
    else s
  else
    let point := getCanvasPoint rect s.viewport e
    if s.currentTool ∈ freehandTools then
      { s with currentPath := s.currentPath.map fun prev =>
          { prev with points := prev.points ++ [point] } }
    else
      { s with currentPath := s.currentPath.map fun prev =>
          { prev with points := [prev.points.headD dfltPoint, point] } }

/-- `stopDrawing` (lines 97-105): leave the drawing state and, if an
in-progress path exists, append it to the committed log and clear it. -/
def stopDrawing (s : WhiteboardState) : WhiteboardState :=
  if s.isDrawing = false then s
  else
    match s.currentPath with
    | some cp =>
        { s with isDrawing := false, paths := s.paths ++ [cp],
                 currentPath := none }
    | none => { s with isDrawing := false }

/-- `Math.sign` on rationals. -/
def jsSign (q : ℚ) : ℚ :=
  if q < 0 then -1 else if 0 < q then 1 else 0

/-- `handleWheel` (lines 108-132): derive the zoom direction from the sign
of `deltaY`, apply a 10% relative step, clamp the scale to `[0.1, 5]`, and
recompute the offsets so the logical point under the mouse stays fixed. -/
def handleWheel (vp : Viewport) (rect : ℚ × ℚ) (e : WheelEvent) :
    Viewport :=
  let zoomIntensity : ℚ := 1/10
  let direction := -jsSign e.deltaY
  let delta := direction * zoomIntensity
  let newScale := min (max (1/10) (vp.scale * (1 + delta))) 5
  let mouseX := e.clientX - rect.1
  let mouseY := e.clientY - rect.2
  let worldX := (mouseX - vp.x) / vp.scale
  let worldY := (mouseY - vp.y) / vp.scale
  { x := mouseX - worldX * newScale
    y := mouseY - worldY * newScale
    scale := newScale }

/-- `manualZoom` (lines 134-149): additive step, clamped to `[0.1, 5]`,
anchored at the canvas center when the canvas is mounted; `canvas` holds
its `(width, height)`. -/
def manualZoom (vp : Viewport) (delta : ℚ) (canvas : Option (ℚ × ℚ)) :
    Viewport :=
  let newScale := min (max (1/10) (vp.scale + delta)) 5
  match canvas with
  | some wh =>
      let centerX := wh.1 / 2
      let centerY := wh.2 / 2
      let worldX := (centerX - vp.x) / vp.scale
      let worldY := (centerY - vp.y) / vp.scale
      { x := centerX - worldX * newScale
        y := centerY - worldY * newScale
        scale := newScale }
  | none => { vp with scale := newScale }

/-- `handleSliderZoom` (lines 151-166): the parsed slider value becomes the
new scale directly (no clamp in the handler), anchored at the canvas
center when the canvas is mounted. -/
def handleSliderZoom (vp : Viewport) (value : ℚ)
    (canvas : Option (ℚ × ℚ)) : Viewport :=
  let newScale := value
  match canvas with
  | some wh =>
      let centerX := wh.1 / 2
      let centerY := wh.2 / 2
      let worldX := (centerX - vp.x) / vp.scale
      let worldY := (centerY - vp.y) / vp.scale
      { x := centerX - worldX * newScale
        y := centerY - worldY * newScale
        scale := newScale }
  | none => { vp with scale := newScale }

/-- The screen-to-logical conversion of the spec (section 4.1); it is the
`worldX`/`worldY` computation of `handleWheel` and `getCanvasPoint`. -/
def screenToLogical (p : ℚ × ℚ) (vp : Viewport) : ℚ × ℚ :=
  ((p.1 - vp.x) / vp.scale, (p.2 - vp.y) / vp.scale)

/-- The zoom-at-point recomputation shared by `handleWheel` (lines
125-131), `manualZoom` and `handleSliderZoom`: keep the logical point
under `anchor` fixed while changing the scale to `newScale`. -/
def zoomAt (anchor : ℚ × ℚ) (newScale : ℚ) (vp : Viewport) : Viewport :=
  let world := screenToLogical anchor vp
  { x := anchor.1 - world.1 * newScale
    y := anchor.2 - world.2 * newScale
    scale := newScale }

/-- Events consumed by the Whiteboard component, for stating reachability
invariants: the pointer handlers (lines 356-359), the undo/clear commands
and the wheel handler. -/
inductive WEvent where
  | down (rect : ℚ × ℚ) (e : PEvent) (newId : String)
  | move (rect : ℚ × ℚ) (e : PEvent)
  | up
  | undo
  | clear
  | wheel (rect : ℚ × ℚ) (e : WheelEvent)

/-- One step of the Whiteboard component: dispatch an event to the handler
that the component binds to it. -/
def step (s : WhiteboardState) : WEvent → WhiteboardState
  | WEvent.down rect e newId => startDrawing rect s e newId
  | WEvent.move rect e => draw rect s e
  | WEvent.up => stopDrawing s
  | WEvent.undo => { s with paths := handleUndo s.paths }
  | WEvent.clear => { s with paths := handleClear }
  | WEvent.wheel rect e => { s with viewport := handleWheel s.viewport rect e }

/-- A sequence of pointer-move events applied in order. -/
def drawAll (rect : ℚ × ℚ) (s : WhiteboardState) (es : List PEvent) :
    WhiteboardState :=
  es.foldl (draw rect) s

/-- Every stroke of the committed log, and the in-progress stroke when
present, has at least one point. -/
def strokesSeeded (s : WhiteboardState) : Prop :=
  ∀ p ∈ s.paths ++ s.currentPath.toList, p.points ≠ []

instance (s : WhiteboardState) : Decidable (strokesSeeded s) := by
  unfold strokesSeeded; infer_instance

/-- Modelled from the spec: the Capture Pipeline (spec section 4.5 and the
`onCapture` contract of section 6) is absent from src/ — App passes an
`onCapture` prop to the Whiteboard, but Whiteboard.tsx neither declares
nor invokes it.  Per the spec, the capture operation encodes the current
surface pixels as a PNG data URI `data:<mimeType>;base64,<payload>` and
hands that string to `onCapture`; `base64Payload` stands for the encoded
surface contents. -/
def capture (base64Payload : String) : String :=
  "data:" ++ "image/png" ++ ";base64," ++ base64Payload

/-- The Chat component's rendering of an attachment as an image source
string (src Chat component, the `img src` template
`data:<mimeType>;base64,<data>`). -/
def attachmentImgSrc (a : String × String) : String :=
  "data:" ++ a.1 ++ ";base64," ++ a.2

/-- The App host's capture handler (src App, `handleWhiteboardCapture`):
store the captured data URI as the pending chat attachment. -/
def handleWhiteboardCapture (imageDataUrl : String) : Option String :=
  some imageDataUrl

/-- A concrete panning state used to witness the pan theorem. -/
def panState₇ : WhiteboardState :=
  { paths := []
    viewport := { x := 5, y := 6, scale := 2 }
    isDrawing := false
    currentPath := none
    currentTool := Tool.pan
    color := "#000000"
    width := 2
    readOnly := false }

/-- A concrete pointer-move event with the primary button held. -/
def panEvent₇ : PEvent :=
  { clientX := 0, clientY := 0, pressure := 1, movementX := 3,
    movementY := -4, buttons := 1 }

/-- A concrete writable state with the pen tool active, used to witness
the stroke-commit theorems. -/
def penState : WhiteboardState :=
  { paths := []
    viewport := { x := 0, y := 0, scale := 1 }
    isDrawing := false
    currentPath := none
    currentTool := Tool.pen
    color := "#000000"
    width := 2
    readOnly := false }

/-- A concrete pointer event used to witness the stroke-commit theorems. -/
def sampleEvent : PEvent :=
  { clientX := 10, clientY := 20, pressure := 1, movementX := 0,
    movementY := 0, buttons := 1 }

/-- A second concrete pointer event. -/
def sampleEvent' : PEvent :=
  { clientX := 30, clientY := 40, pressure := 1, movementX := 0,
    movementY := 0, buttons := 1 }

/-- A concrete writable state with the rectangle tool active. -/
def rectState : WhiteboardState :=
  { penState with currentTool := Tool.rectangle }

/-- A concrete read-only state. -/
def roState : WhiteboardState :=
  { penState with readOnly := true }

/-- A concrete wheel event scrolling up (zoom in). -/
def wheelEv : WheelEvent :=
  { clientX := 0, clientY := 0, deltaY := -1 }

/-! ## Helper lemmas -/

/-- `handleWheel` is the zoom-at-point recomputation applied at the mouse
position with the clamped scale. -/
lemma handleWheel_eq_zoomAt (vp : Viewport) (rect : ℚ × ℚ) (e : WheelEvent) :
    handleWheel vp rect e =
      zoomAt (e.clientX - rect.1, e.clientY - rect.2)
        (min (max (1/10) (vp.scale * (1 + -jsSign e.deltaY * (1/10)))) 5) vp :=
  rfl

/-- `startDrawing` on a writable state with a tool that is neither pan,
eraser nor highlighter: enter the drawing state with a path seeded at the
converted sample, carrying the configured color and width. -/
lemma startDrawing_eq (rect : ℚ × ℚ) (s : WhiteboardState) (e : PEvent)
    (newId : String) (hro : s.readOnly = false)
    (hpan : s.currentTool ≠ Tool.pan) (her : s.currentTool ≠ Tool.eraser)
    (hhi : s.currentTool ≠ Tool.highlighter) :
    startDrawing rect s e newId =
      { s with
        isDrawing := true
        currentPath := some
          { id := newId
            points := [getCanvasPoint rect s.viewport e]
            color := s.color
            width := s.width
            tool := s.currentTool } } := by
  unfold startDrawing
  rw [if_neg (by simp [hro]), if_neg hpan]
  simp [her, hhi]

/-- `startDrawing` on a writable state with any non-pan tool seeds the
in-progress path with exactly one point. -/
lemma startDrawing_seeds (rect : ℚ × ℚ) (s : WhiteboardState) (e : PEvent)
    (newId : String) (hro : s.readOnly = false)
    (hpan : s.currentTool ≠ Tool.pan) :
    ∃ cp, startDrawing rect s e newId =
        { s with isDrawing := true, currentPath := some cp }
      ∧ cp.points = [getCanvasPoint rect s.viewport e] := by
  unfold startDrawing
  rw [if_neg (by simp [hro]), if_neg hpan]
  exact ⟨_, rfl, rfl⟩

/-- One `draw` step with a freehand tool appends the converted point. -/
lemma draw_freehand_step (rect : ℚ × ℚ) (s : WhiteboardState)
    (cp : DrawingPath) (e : PEvent) (hd : s.isDrawing = true)
    (hcp : s.currentPath = some cp) (ht : s.currentTool ∈ freehandTools) :
    draw rect s e =
      { s with currentPath := some
                   { cp with
                     points := cp.points ++
                       [getCanvasPoint rect s.viewport e] } } := by
  unfold draw
  rw [if_neg (by simp [hd, hcp]), if_pos ht, hcp]
  rfl

/-- One `draw` step with a shape tool replaces the point list with the
anchor (head of the current list) and the converted point. -/
lemma draw_shape_step (rect : ℚ × ℚ) (s : WhiteboardState)
    (cp : DrawingPath) (e : PEvent) (hd : s.isDrawing = true)
    (hcp : s.currentPath = some cp) (ht : s.currentTool ∉ freehandTools) :
    draw rect s e =
      { s with currentPath := some
                   { cp with
                     points := [cp.points.headD dfltPoint,
                                getCanvasPoint rect s.viewport e] } } := by
  unfold draw
  rw [if_neg (by simp [hd, hcp]), if_neg ht, hcp]
  rfl

/-- `stopDrawing` while drawing with an in-progress path commits it. -/
lemma stopDrawing_commit (s : WhiteboardState) (cp : DrawingPath)
    (hd : s.isDrawing = true) (hcp : s.currentPath = some cp) :
    stopDrawing s =
      { s with isDrawing := false, paths := s.paths ++ [cp],
               currentPath := none } := by
  unfold stopDrawing
  rw [if_neg (by simp [hd]), hcp]

/-! ## Claim theorems -/

/-- C1: the capture operation hands the host's `onCapture` callback the
current surface contents as a PNG data URI
`data:<mimeType>;base64,<payload>`; the App handler stores exactly that
string, and it coincides with the Chat component's data-URI rendering of a
PNG attachment holding the same payload. -/
theorem capture_produces_png_data_uri (payload : String) :
    capture payload = "data:" ++ "image/png" ++ ";base64," ++ payload
    ∧ handleWhiteboardCapture (capture payload) = some (capture payload)
    ∧ attachmentImgSrc ("image/png", payload) = capture payload :=
  ⟨rfl, rfl, rfl⟩

/-- C2 counterexample: the slider-zoom handler applies an out-of-range
slider value unclamped — value 6 yields scale 6, above the claimed upper
bound 5. -/
theorem sliderZoom_not_clamped_cex :
    (handleSliderZoom { x := 0, y := 0, scale := 1 } 6
        (some (800, 600))).scale = 6
    ∧ ¬ (handleSliderZoom { x := 0, y := 0, scale := 1 } 6
        (some (800, 600))).scale ≤ 5 := by
  constructor
  · rfl
  · decide

/-- C2 (amended): wheel zoom and manual button zoom clamp the resulting
scale into `[0.1, 5]`; slider zoom applies the parsed slider value as the
new scale without clamping in the handler. -/
theorem zoom_scale_clamped_amended (vp : Viewport) (rect : ℚ × ℚ)
    (e : WheelEvent) (delta value : ℚ) (canvas : Option (ℚ × ℚ)) :
    (1/10 ≤ (handleWheel vp rect e).scale
      ∧ (handleWheel vp rect e).scale ≤ 5)
    ∧ (1/10 ≤ (manualZoom vp delta canvas).scale
      ∧ (manualZoom vp delta canvas).scale ≤ 5)
    ∧ (handleSliderZoom vp value canvas).scale = value := by
  refine ⟨⟨?_, ?_⟩, ⟨?_, ?_⟩, ?_⟩
  · simp only [handleWheel]
    exact le_min (le_max_left _ _) (by norm_num)
  · simp only [handleWheel]
    exact min_le_right _ _
  · cases canvas <;> simp only [manualZoom] <;>
      exact le_min (le_max_left _ _) (by norm_num)
  · cases canvas <;> simp only [manualZoom] <;> exact min_le_right _ _
  · cases canvas <;> rfl

/-- C3: the zoom-at-point recomputation used by the wheel and button/slider
zoom handlers keeps the logical point under the anchor unchanged, for any
nonzero new scale. -/
theorem zoomAt_preserves_anchor_point (v : Viewport) (a : ℚ × ℚ) (s' : ℚ)
    (h : s' ≠ 0) :
    screenToLogical a (zoomAt a s' v) = screenToLogical a v := by
  obtain ⟨x, y, sc⟩ := v
  by_cases hs : sc = 0
  · subst hs
    simp [screenToLogical, zoomAt]
  · simp only [screenToLogical, zoomAt, Prod.mk.injEq]
    constructor <;> field_simp <;> ring

/-- C3 witness at a concrete viewport, anchor and scale. -/
theorem zoomAt_preserves_anchor_point_witness :
    (3 : ℚ) ≠ 0
    ∧ screenToLogical (3, 4) (zoomAt (3, 4) 3 { x := 1, y := 2, scale := 2 })
        = screenToLogical (3, 4) { x := 1, y := 2, scale := 2 } :=
  ⟨by norm_num, zoomAt_preserves_anchor_point _ _ _ (by norm_num)⟩

/-- C4: undo removes exactly the last committed stroke leaving the earlier
ones intact in order, and is a silent no-op on the empty log. -/
theorem undo_removes_last_stroke (l : List DrawingPath) (s : DrawingPath) :
    handleUndo (l ++ [s]) = l
    ∧ handleUndo ([] : List DrawingPath) = [] := by
  constructor
  · simp [handleUndo]
  · simp [handleUndo]

/-- C7: a pointer-move with the pan tool active and the primary button held
translates the viewport offsets by exactly the raw screen-space movement
deltas and leaves the scale unchanged. -/
theorem pan_translates_by_raw_delta (rect : ℚ × ℚ) (s : WhiteboardState)
    (e : PEvent) (hnd : s.isDrawing = false)
    (htool : s.currentTool = Tool.pan) (hb : e.buttons = 1) :
    draw rect s e =
      { s with viewport :=
        { x := s.viewport.x + e.movementX
          y := s.viewport.y + e.movementY
          scale := s.viewport.scale } } := by
  unfold draw
  rw [if_pos (Or.inl hnd), if_pos ⟨htool, hb⟩]

/-- C7 witness at a concrete panning state and move event. -/
theorem pan_translates_by_raw_delta_witness :
    (panState₇.isDrawing = false ∧ panState₇.currentTool = Tool.pan
      ∧ panEvent₇.buttons = 1)
    ∧ draw (0, 0) panState₇ panEvent₇ =
      { panState₇ with viewport :=
        { x := panState₇.viewport.x + panEvent₇.movementX
          y := panState₇.viewport.y + panEvent₇.movementY
          scale := panState₇.viewport.scale } } :=
  ⟨⟨rfl, rfl, rfl⟩, pan_translates_by_raw_delta (0, 0) panState₇ panEvent₇
    rfl rfl rfl⟩

/-- C10: a wheel event at a clamp boundary in the direction of the zoom
(scale 5 zooming in, scale 0.1 zooming out) leaves the whole viewport
unchanged — exactly, since the embedding computes in exact rational
arithmetic. -/
theorem handleWheel_fixed_point_at_clamp (vp : Viewport) (rect : ℚ × ℚ)
    (e : WheelEvent)
    (h : (vp.scale = 5 ∧ e.deltaY < 0) ∨ (vp.scale = 1/10 ∧ 0 < e.deltaY)) :
    handleWheel vp rect e = vp := by
  obtain ⟨x, y, sc⟩ := vp
  rcases h with ⟨h5, hd⟩ | ⟨h01, hd⟩
  · have hsc : sc = 5 := h5
    subst hsc
    simp only [handleWheel, jsSign, hd, if_pos, Viewport.mk.injEq]
    norm_num [min_def, max_def]
  · have hsc : sc = 1/10 := h01
    subst hsc
    have hneg : ¬ e.deltaY < 0 := not_lt.mpr hd.le
    simp only [handleWheel, jsSign, hneg, hd, if_pos, if_neg,
               if_false, Viewport.mk.injEq]
    norm_num [min_def, max_def]

/-- C10 witness: zooming in at scale 5 is the identity on a concrete
viewport. -/
theorem handleWheel_fixed_point_at_clamp_witness :
    (((5 : ℚ) = 5 ∧ (-3 : ℚ) < 0) ∨ ((5 : ℚ) = 1/10 ∧ (0 : ℚ) < -3))
    ∧ handleWheel { x := 7, y := -2, scale := 5 } (1, 1)
        { clientX := 30, clientY := 40, deltaY := -3 }
        = { x := 7, y := -2, scale := 5 } :=
  ⟨Or.inl ⟨rfl, by norm_num⟩,
    handleWheel_fixed_point_at_clamp _ _ _ (Or.inl ⟨rfl, by norm_num⟩)⟩

/-- A sequence of freehand draw steps appends all converted samples in
order to the in-progress path, changing nothing else. -/
lemma drawAll_freehand (rect : ℚ × ℚ) (es : List PEvent) :
    ∀ (s : WhiteboardState) (cp : DrawingPath),
      s.isDrawing = true → s.currentPath = some cp →
      s.currentTool ∈ freehandTools →
      drawAll rect s es =
        { s with currentPath := some
                   { cp with
                     points := cp.points ++
                       es.map (getCanvasPoint rect s.viewport) } } := by
  induction es with
  | nil =>
      intro s cp hd hcp ht
      simp only [drawAll, List.foldl_nil, List.map_nil, List.append_nil]
      have h1 : ({ cp with points := cp.points } : DrawingPath) = cp := rfl
      rw [h1, ← hcp]
  | cons e es ih =>
      intro s cp hd hcp ht
      simp only [drawAll, List.foldl_cons] at ih ⊢
      rw [draw_freehand_step rect s cp e hd hcp ht,
          ih ({ s with currentPath := some
                         { cp with
                           points := cp.points ++
                             [getCanvasPoint rect s.viewport e] } })
            _ hd rfl ht]
      simp [List.append_assoc]

/-- A sequence of shape draw steps keeps a two-point (anchor, latest)
in-progress path: the resulting point list is the original anchor followed
by the conversion of the last move event, changing nothing else. -/
lemma drawAll_shape (rect : ℚ × ℚ) (es : List PEvent) :
    ∀ (s : WhiteboardState) (cp : DrawingPath),
      s.isDrawing = true → s.currentPath = some cp →
      s.currentTool ∉ freehandTools →
      ∃ pts : List Point,
        drawAll rect s es =
          { s with currentPath := some { cp with points := pts } }
        ∧ pts.headD dfltPoint = cp.points.headD dfltPoint
        ∧ (es = [] → pts = cp.points)
        ∧ ∀ h : es ≠ [],
            pts = [cp.points.headD dfltPoint,
                   getCanvasPoint rect s.viewport (es.getLast h)] := by
  induction es with
  | nil =>
      intro s cp hd hcp ht
      refine ⟨cp.points, ?_, rfl, fun _ => rfl, fun h => absurd rfl h⟩
      simp only [drawAll, List.foldl_nil]
      have h1 : ({ cp with points := cp.points } : DrawingPath) = cp := rfl
      rw [h1, ← hcp]
  | cons e es ih =>
      intro s cp hd hcp ht
      obtain ⟨pts, heq, hhead, hnil, hlast⟩ :=
        ih ({ s with currentPath := some
                       { cp with
                         points := [cp.points.headD dfltPoint,
                                    getCanvasPoint rect s.viewport e] } })
          _ hd rfl ht
      refine ⟨pts, ?_, ?_, ?_, ?_⟩
      · simp only [drawAll, List.foldl_cons] at heq ⊢
        rw [draw_shape_step rect s cp e hd hcp ht]
        exact heq
      · simpa using hhead
      · intro habs
        exact absurd habs (List.cons_ne_nil e es)
      · intro h
        by_cases hes : es = []
        · subst hes
          simpa using hnil rfl
        · have hp := hlast hes
          simp only at hp
          rw [hp]
          simp [List.getLast_cons hes]

/-- `draw` does not read the `readOnly` flag: its result on a state with
one `readOnly` value equals its result on the same state with another,
with the flag carried over. -/
lemma draw_readOnly_indep (rect : ℚ × ℚ) (s : WhiteboardState) (e : PEvent)
    (b b' : Bool) :
    draw rect { s with readOnly := b } e =
      { draw rect { s with readOnly := b' } e with readOnly := b } := by
  obtain ⟨p, v, d, c, t, col, w, r⟩ := s
  unfold draw
  dsimp only
  split_ifs <;> rfl

/-- Every step of the component preserves the property that each stroke of
the committed log and the in-progress stroke have at least one point. -/
lemma step_preserves_strokesSeeded (s : WhiteboardState) (ev : WEvent)
    (hinv : strokesSeeded s) : strokesSeeded (step s ev) := by
  cases ev with
  | down rect e newId =>
      simp only [step]
      unfold startDrawing
      split_ifs with h1 h2
      · exact hinv
      · exact hinv
      all_goals
        intro p hp
        simp only [List.mem_append] at hp
        rcases hp with hl | hr
        · exact hinv p (List.mem_append_left _ hl)
        · simp at hr
          subst hr
          simp
  | move rect e =>
      simp only [step]
      unfold draw
      split_ifs with h1 h2
      · intro p hp
        exact hinv p hp
      · exact hinv
      all_goals
        push_neg at h1
        rcases hcp : s.currentPath with _ | cp
        · exact absurd hcp h1.2
        all_goals
          intro p hp
          simp only [List.mem_append] at hp
          rcases hp with hl | hr
          · exact hinv p (List.mem_append_left _ hl)
          · simp at hr
            subst hr
            simp
  | up =>
      simp only [step]
      unfold stopDrawing
      split_ifs with h1
      · exact hinv
      · split
        next cp hcp =>
          intro p hp
          simp only [List.mem_append] at hp
          rcases hp with hl | hr
          · rcases hl with hl' | hr'
            · exact hinv p (List.mem_append_left _ hl')
            · simp at hr'
              subst hr'
              exact hinv p (List.mem_append_right _ (by simp [hcp]))
          · simp at hr
        next hcp =>
          exact hinv
  | undo =>
      simp only [step]
      unfold handleUndo
      split_ifs with h1
      · intro p hp
        simp only [List.mem_append] at hp
        rcases hp with hl | hr
        · exact hinv p
            (List.mem_append_left _ ((List.dropLast_sublist _).subset hl))
        · exact hinv p (List.mem_append_right _ hr)
      · exact hinv
  | clear =>
      simp only [step, handleClear]
      intro p hp
      simp only [List.mem_append] at hp
      rcases hp with hl | hr
      · exact absurd hl (List.not_mem_nil p)
      · exact hinv p (List.mem_append_right _ hr)
  | wheel rect e =>
      exact hinv

/-- C5: a stroke drawn with a shape tool (rectangle, circle or line)
through any nonempty sequence of pointer-move events commits with exactly
two points: the anchor sampled at pointer-down and the conversion of the
final pointer position, regardless of how many intermediate moves
occurred. -/
theorem shape_stroke_commits_anchor_and_final (rect : ℚ × ℚ)
    (s : WhiteboardState) (e0 : PEvent) (newId : String) (es : List PEvent)
    (h : es ≠ []) (hro : s.readOnly = false)
    (htool : s.currentTool = Tool.rectangle ∨ s.currentTool = Tool.circle
      ∨ s.currentTool = Tool.line) :
    (stopDrawing (drawAll rect (startDrawing rect s e0 newId) es)).paths
      = s.paths ++
        [{ id := newId
           points := [getCanvasPoint rect s.viewport e0,
                      getCanvasPoint rect s.viewport (es.getLast h)]
           color := s.color
           width := s.width
           tool := s.currentTool }] := by
  have hpan : s.currentTool ≠ Tool.pan := by
    rcases htool with h1 | h1 | h1 <;> simp [h1]
  have her : s.currentTool ≠ Tool.eraser := by
    rcases htool with h1 | h1 | h1 <;> simp [h1]
  have hhi : s.currentTool ≠ Tool.highlighter := by
    rcases htool with h1 | h1 | h1 <;> simp [h1]
  have hfh : s.currentTool ∉ freehandTools := by
    rcases htool with h1 | h1 | h1 <;> simp [h1, freehandTools]
  rw [startDrawing_eq rect s e0 newId hro hpan her hhi]
  obtain ⟨pts, heq, hhead, hnil, hlast⟩ :=
    drawAll_shape rect es ({ s with
        isDrawing := true
        currentPath := some
          { id := newId
            points := [getCanvasPoint rect s.viewport e0]
            color := s.color
            width := s.width
            tool := s.currentTool } }) _ rfl rfl hfh
  rw [heq, stopDrawing_commit _ _ rfl rfl]
  have hpts := hlast h
  simp only [List.headD_cons] at hpts
  simp [hpts]

/-- C5 witness: a rectangle stroke through one move event commits with
exactly the anchor and the final point. -/
theorem shape_stroke_commits_anchor_and_final_witness :
    ([sampleEvent'] ≠ ([] : List PEvent))
    ∧ rectState.readOnly = false
    ∧ (rectState.currentTool = Tool.rectangle
        ∨ rectState.currentTool = Tool.circle
        ∨ rectState.currentTool = Tool.line)
    ∧ (stopDrawing (drawAll (0, 0)
          (startDrawing (0, 0) rectState sampleEvent "1")
          [sampleEvent'])).paths
      = rectState.paths ++
        [{ id := "1"
           points := [getCanvasPoint (0, 0) rectState.viewport sampleEvent,
                      getCanvasPoint (0, 0) rectState.viewport
                        ([sampleEvent'].getLast (List.cons_ne_nil _ _))]
           color := rectState.color
           width := rectState.width
           tool := rectState.currentTool }] :=
  ⟨List.cons_ne_nil _ _, rfl, Or.inl rfl,
    shape_stroke_commits_anchor_and_final (0, 0) rectState sampleEvent "1"
      [sampleEvent'] (List.cons_ne_nil _ _) rfl (Or.inl rfl)⟩

/-- C6: a pen stroke started at one sample and dragged through a sequence
of move events commits with all converted samples, in order, starting with
the pointer-down sample. -/
theorem pen_stroke_commits_samples_in_order (rect : ℚ × ℚ)
    (s : WhiteboardState) (e0 : PEvent) (newId : String) (es : List PEvent)
    (hro : s.readOnly = false) (htool : s.currentTool = Tool.pen) :
    (stopDrawing (drawAll rect (startDrawing rect s e0 newId) es)).paths
      = s.paths ++
        [{ id := newId
           points := getCanvasPoint rect s.viewport e0 ::
             es.map (getCanvasPoint rect s.viewport)
           color := s.color
           width := s.width
           tool := Tool.pen }] := by
  have hpan : s.currentTool ≠ Tool.pan := by simp [htool]
  have her : s.currentTool ≠ Tool.eraser := by simp [htool]
  have hhi : s.currentTool ≠ Tool.highlighter := by simp [htool]
  have hfh : s.currentTool ∈ freehandTools := by simp [htool, freehandTools]
  rw [startDrawing_eq rect s e0 newId hro hpan her hhi]
  rw [drawAll_freehand rect es ({ s with
        isDrawing := true
        currentPath := some
          { id := newId
            points := [getCanvasPoint rect s.viewport e0]
            color := s.color
            width := s.width
            tool := s.currentTool } }) _ rfl rfl hfh]
  rw [stopDrawing_commit _ _ rfl rfl]
  simp [htool]

/-- C6 witness: a pen stroke through two move events commits the three
converted samples in order. -/
theorem pen_stroke_commits_samples_in_order_witness :
    penState.readOnly = false
    ∧ penState.currentTool = Tool.pen
    ∧ (stopDrawing (drawAll (0, 0)
          (startDrawing (0, 0) penState sampleEvent "1")
          [sampleEvent', panEvent₇])).paths
      = penState.paths ++
        [{ id := "1"
           points := getCanvasPoint (0, 0) penState.viewport sampleEvent ::
             [sampleEvent', panEvent₇].map
               (getCanvasPoint (0, 0) penState.viewport)
           color := penState.color
           width := penState.width
           tool := Tool.pen }] :=
  ⟨rfl, rfl,
    pen_stroke_commits_samples_in_order (0, 0) penState sampleEvent "1"
      [sampleEvent', panEvent₇] rfl rfl⟩

/-- C8: in read-only mode a pointer-down is a no-op (the state, including
log and viewport, is unchanged), while pointer-move handling (hence
panning) ignores the read-only flag entirely and wheel zoom reads only
the viewport, so both behave exactly as in writable mode. -/
theorem readOnly_pointerdown_noop_pan_zoom_permitted (rect : ℚ × ℚ)
    (s : WhiteboardState) (e eMove : PEvent) (w : WheelEvent)
    (newId : String) (hro : s.readOnly = true) :
    startDrawing rect s e newId = s
    ∧ draw rect s eMove =
        { draw rect { s with readOnly := false } eMove with
          readOnly := true }
    ∧ handleWheel s.viewport rect w =
        handleWheel ({ s with readOnly := false }).viewport rect w := by
  have hs : { s with readOnly := true } = s := by
    obtain ⟨p, v, d, c, t, col, w', r⟩ := s
    have hr : r = true := hro
    subst hr
    rfl
  refine ⟨?_, ?_, rfl⟩
  · unfold startDrawing
    rw [if_pos hro]
  · conv_lhs => rw [← hs]
    exact draw_readOnly_indep rect s eMove true false

/-- C8 witness at a concrete read-only state. -/
theorem readOnly_pointerdown_noop_witness :
    roState.readOnly = true
    ∧ startDrawing (0, 0) roState sampleEvent "1" = roState
    ∧ draw (0, 0) roState sampleEvent' =
        { draw (0, 0) { roState with readOnly := false } sampleEvent' with
          readOnly := true }
    ∧ handleWheel roState.viewport (0, 0) wheelEv =
        handleWheel ({ roState with readOnly := false }).viewport (0, 0)
          wheelEv :=
  ⟨rfl,
    (readOnly_pointerdown_noop_pan_zoom_permitted (0, 0) roState sampleEvent
      sampleEvent' wheelEv "1" rfl).1,
    (readOnly_pointerdown_noop_pan_zoom_permitted (0, 0) roState sampleEvent
      sampleEvent' wheelEv "1" rfl).2.1,
    (readOnly_pointerdown_noop_pan_zoom_permitted (0, 0) roState sampleEvent
      sampleEvent' wheelEv "1" rfl).2.2⟩

/-- C9: with any non-pan tool, a pointer-down immediately followed by
pointer-up commits a stroke whose point list is exactly the one seed
sample taken at pointer-down; moreover every component step preserves the
property that all committed strokes and the in-progress stroke have at
least one point, so the empty-stroke discard case never arises. -/
theorem tap_commits_seed_point_and_strokes_nonempty (rect : ℚ × ℚ)
    (s : WhiteboardState) (e : PEvent) (newId : String)
    (hro : s.readOnly = false) (hpan : s.currentTool ≠ Tool.pan) :
    ((stopDrawing (startDrawing rect s e newId)).paths).map
        DrawingPath.points
      = (s.paths.map DrawingPath.points)
        ++ [[getCanvasPoint rect s.viewport e]]
    ∧ ∀ ev : WEvent, strokesSeeded s → strokesSeeded (step s ev) := by
  refine ⟨?_, fun ev hinv => step_preserves_strokesSeeded s ev hinv⟩
  obtain ⟨cp, heq, hpts⟩ := startDrawing_seeds rect s e newId hro hpan
  rw [heq, stopDrawing_commit _ _ rfl rfl]
  simp [hpts]

/-- C9 witness at a concrete pen-tool state and tap event. -/
theorem tap_commits_seed_point_witness :
    penState.readOnly = false
    ∧ penState.currentTool ≠ Tool.pan
    ∧ ((stopDrawing (startDrawing (0, 0) penState sampleEvent "1")).paths).map
        DrawingPath.points
      = (penState.paths.map DrawingPath.points)
        ++ [[getCanvasPoint (0, 0) penState.viewport sampleEvent]]
    ∧ strokesSeeded (step penState WEvent.up) :=
  ⟨rfl, by decide,
    (tap_commits_seed_point_and_strokes_nonempty (0, 0) penState sampleEvent
      "1" rfl (by decide)).1,
    (tap_commits_seed_point_and_strokes_nonempty (0, 0) penState sampleEvent
      "1" rfl (by decide)).2 WEvent.up (by decide)⟩

end MathBoard
